import Mathlib

/-!
Verification development for the task-graph store and resilience layer of
the `flo` repository.  The Lean definitions below are a shallow embedding of
the Go source: `pkg/task` (the `Task` model, status state machine, `Registry`
with dependency validation, and the versioned file persistence protocol) and
`pkg/agent` (circuit breaker and retry-with-backoff).  Go maps are embedded
as association lists, Go `time.Time` as natural-number instants, and the
single on-disk task file as an explicit `FileContent` value threaded through
`Save`/`Load`.
-/

namespace Flo

/-! ### Status and Task (pkg/task, task.go) -/

/-- Go `type Status string`: statuses are strings, so unknown statuses are
representable, exactly as in the source. -/
abbrev Status := String

def StatusPending : Status := "pending"

def StatusInProgress : Status := "in_progress"

def StatusComplete : Status := "complete"

def StatusFailed : Status := "failed"

/-- Go `Status.IsValid`. -/
def Status.isValid (s : Status) : Bool :=
  s = StatusPending || s = StatusInProgress || s = StatusComplete || s = StatusFailed

/-- Go `task.Task`.  `createdAt`/`updatedAt` are abstract instants (`Nat`). -/
structure Task where
  id : String
  title : String
  description : String := ""
  status : Status
  priority : Int := 0
  repo : String := ""
  deps : List String := []
  specRef : String := ""
  createdAt : Nat := 0
  updatedAt : Nat := 0
deriving Repr, DecidableEq

/-- Errors produced by `Task.Validate` and `Task.SetStatus`; each Go error
string becomes one constructor carrying the data interpolated into it. -/
inductive TaskErr where
  | emptyID
  | emptyTitle
  | invalidStatus (s : Status)
  | unknownStatus (s : Status)
  | invalidTransition (src dst : Status)
deriving Repr, DecidableEq

/-- Go `Task.Validate`. -/
def Task.Validate (t : Task) : Option TaskErr :=
  if t.id = "" then some .emptyID
  else if t.title = "" then some .emptyTitle
  else if t.status ≠ "" && !t.status.isValid then some (.invalidStatus t.status)
  else none

/-- Go `validTransitions`: the map from current status to the set of allowed
next statuses; `none` models absence of the key (unknown current status). -/
def validTransitions (s : Status) : Option (Status → Bool) :=
  if s = StatusPending then some (fun t => t = StatusInProgress)
  else if s = StatusInProgress then some (fun t => t = StatusComplete || t = StatusFailed)
  else if s = StatusComplete then some (fun _ => false)
  else if s = StatusFailed then some (fun t => t = StatusPending)
  else none

/-- Go `Task.SetStatus`.  The method mutates the receiver and returns an
error; here it returns the post-call task together with the optional error
(`time.Now()` is the explicit argument `now`). -/
def Task.SetStatus (t : Task) (newStatus : Status) (now : Nat) : Task × Option TaskErr :=
  if t.status = newStatus then (t, none)
  else
    match validTransitions t.status with
    | none => (t, some (.unknownStatus t.status))
    | some allowed =>
      if allowed newStatus then
        ({ t with status := newStatus, updatedAt := now }, none)
      else (t, some (.invalidTransition t.status newStatus))

/-! ### Association-list embedding of the Go map `map[string]*Task` -/

/-- Lookup by key, first match wins. -/
def lookupKey : List (String × Task) → String → Option Task
  | [], _ => none
  | p :: m, k => if p.1 = k then some p.2 else lookupKey m k

/-- Remove every entry with the given key (Go `delete(m, k)`). -/
def eraseKey (m : List (String × Task)) (k : String) : List (String × Task) :=
  m.filter (fun p => p.1 ≠ k)

/-- Go map assignment `m[k] = v`: replaces any existing entry for `k`. -/
def mapInsert (m : List (String × Task)) (k : String) (v : Task) : List (String × Task) :=
  eraseKey m k ++ [(k, v)]

/-! ### Registry (pkg/task, registry.go) -/

/-- Errors produced by `Registry` operations; one constructor per Go error
site, carrying the data interpolated into the error string. -/
inductive RegErr where
  | invalidTask (e : TaskErr)
  | duplicate (id : String)
  | notFound (id : String)
  | depNotFound (dep : String)
  | circular (id : String)
  | hasDependent (id dependent : String)
  | versionConflict (expected found : Int)
  | decodeFailed
  | loadInvalidTask (id : String) (e : TaskErr)
deriving Repr, DecidableEq

/-- Go `task.Registry`: the in-memory map plus the optimistic-concurrency
version counter (the mutex has no observable sequential content). -/
structure Registry where
  tasks : List (String × Task)
  version : Int
deriving Repr, DecidableEq

/-- Go `NewRegistry`. -/
def NewRegistry : Registry := { tasks := [], version := 0 }

def Registry.lookup (r : Registry) (id : String) : Option Task :=
  lookupKey r.tasks id

/-- Go `Registry.validateDepsLocked`: first missing dependency, if any. -/
def Registry.validateDeps (r : Registry) (t : Task) : Option RegErr :=
  match t.deps.find? (fun d => (r.lookup d).isNone) with
  | some d => some (.depNotFound d)
  | none => none

/-- Go `Registry.Add`.  Returns the post-call registry and the optional
error; every error path in the source returns before the map assignment, so
the registry component is unchanged on those paths. -/
def Registry.Add (r : Registry) (t : Task) : Registry × Option RegErr :=
  match t.Validate with
  | some e => (r, some (.invalidTask e))
  | none =>
    if (r.lookup t.id).isSome then (r, some (.duplicate t.id))
    else
      match r.validateDeps t with
      | some e => (r, some e)
      | none => ({ r with tasks := mapInsert r.tasks t.id t }, none)

/-- Go `Registry.Get`. -/
def Registry.Get (r : Registry) (id : String) : Option Task × Option RegErr :=
  match r.lookup id with
  | some t => (some t, none)
  | none => (none, some (.notFound id))

/-- Go `Registry.allDepsCompleteLocked`. -/
def Registry.allDepsComplete (r : Registry) (t : Task) : Bool :=
  t.deps.all fun d =>
    match r.lookup d with
    | some dep => dep.status = StatusComplete
    | none => false

/-- Go `Registry.GetReady`: pending tasks all of whose deps are complete. -/
def Registry.GetReady (r : Registry) : List Task :=
  (r.tasks.map Prod.snd).filter fun t =>
    decide (t.status = StatusPending) && r.allDepsComplete t

/-- Go `Registry.Delete`: rejects unknown ids and ids some other task still
depends on; otherwise removes the key. -/
def Registry.Delete (r : Registry) (id : String) : Registry × Option RegErr :=
  if (r.lookup id).isNone then (r, some (.notFound id))
  else
    match r.tasks.find? (fun p => p.2.deps.contains id) with
    | some p => (r, some (.hasDependent id p.2.id))
    | none => ({ r with tasks := eraseKey r.tasks id }, none)

/-! ### Cycle detection (Go `Registry.checkCircularLocked`)

The Go function threads one shared mutable `visited` map through a depth
first search; here the map is an explicit `List String` threaded through the
recursion, and the returned value carries the proof that `visited` only
grows (used by the termination measure). -/

/-- Number of registry keys not yet visited: the primary termination
measure of the depth-first search. -/
def unvisitedCount (r : Registry) (visited : List String) : Nat :=
  ((r.tasks.map Prod.fst).filter (fun k => decide (k ∉ visited))).length

theorem unvisitedCount_mono (r : Registry) {v v' : List String} (h : v ⊆ v') :
    unvisitedCount r v' ≤ unvisitedCount r v := by
  unfold unvisitedCount
  refine List.Sublist.length_le (List.monotone_filter_right _ ?_)
  intro a ha
  simp only [decide_eq_true_eq] at ha ⊢
  exact fun hmem => ha (h hmem)

theorem unvisitedCount_lt (r : Registry) {v : List String} {d : String}
    (hk : d ∈ r.tasks.map Prod.fst) (hv : d ∉ v) :
    unvisitedCount r (d :: v) < unvisitedCount r v := by
  unfold unvisitedCount
  have hsub : List.Sublist
      ((r.tasks.map Prod.fst).filter (fun k => decide (k ∉ d :: v)))
      ((r.tasks.map Prod.fst).filter (fun k => decide (k ∉ v))) := by
    refine List.monotone_filter_right _ ?_
    intro a ha
    simp only [decide_eq_true_eq, List.mem_cons] at ha ⊢
    exact fun hmem => ha (Or.inr hmem)
  refine Nat.lt_of_le_of_ne (List.Sublist.length_le hsub) ?_
  intro hlen
  have heq := hsub.eq_of_length hlen
  have hdmem : d ∈ (r.tasks.map Prod.fst).filter (fun k => decide (k ∉ v)) := by
    simp only [List.mem_filter, decide_eq_true_eq]
    exact ⟨hk, hv⟩
  rw [← heq] at hdmem
  simp [List.mem_filter] at hdmem

theorem mem_keys_of_lookup {m : List (String × Task)} {k : String} {t : Task}
    (h : lookupKey m k = some t) : k ∈ m.map Prod.fst := by
  induction m with
  | nil => simp [lookupKey] at h
  | cons p m ih =>
    by_cases hp : p.1 = k
    · simp [hp]
    · simp only [lookupKey, hp, if_false] at h
      simpa using Or.inr (ih h)

theorem not_mem_keys_of_lookup_none {m : List (String × Task)} {k : String}
    (h : lookupKey m k = none) : k ∉ m.map Prod.fst := by
  induction m with
  | nil => simp
  | cons p m ih =>
    by_cases hp : p.1 = k
    · simp [lookupKey, hp] at h
    · simp only [lookupKey, hp, if_false] at h
      intro hmem
      rcases List.mem_map.mp hmem with ⟨q, hq, hqk⟩
      rcases List.mem_cons.mp hq with rfl | hq'
      · exact hp hqk
      · exact ih h (List.mem_map.mpr ⟨q, hq', hqk⟩)

theorem unvisitedCount_cons_of_none {r : Registry} {d : String} {v : List String}
    (hl : r.lookup d = none) : unvisitedCount r (d :: v) = unvisitedCount r v := by
  unfold unvisitedCount
  refine congrArg _ (List.filter_congr ?_)
  intro k hk
  have hkd : k ≠ d := by
    intro h
    exact not_mem_keys_of_lookup_none hl (h ▸ hk)
  simp [List.mem_cons, hkd]

/-- Go `Registry.checkCircularLocked startID deps visited`: a DFS that
errors when `startID` is reachable from `deps`.  Each visited dependency is
marked before its own deps are explored; the subtype result records that the
visited set only grows. -/
def checkCircularGo (r : Registry) (s : String) :
    (l : List String) → (visited : List String) →
    Except Unit { v : List String // visited ⊆ v }
  | [], visited => .ok ⟨visited, fun _ h => h⟩
  | d :: rest, visited =>
    if d = s then .error ()
    else if hmem : d ∈ visited then
      checkCircularGo r s rest visited
    else
      match hl : r.lookup d with
      | none =>
        match checkCircularGo r s rest (d :: visited) with
        | .error e => .error e
        | .ok ⟨v, hv⟩ => .ok ⟨v, fun x hx => hv (List.mem_cons_of_mem _ hx)⟩
      | some t =>
        match checkCircularGo r s t.deps (d :: visited) with
        | .error e => .error e
        | .ok ⟨v2, hv2⟩ =>
          match checkCircularGo r s rest v2 with
          | .error e => .error e
          | .ok ⟨v3, hv3⟩ =>
            .ok ⟨v3, fun x hx => hv3 (hv2 (List.mem_cons_of_mem _ hx))⟩
termination_by l visited => (unvisitedCount r visited, l.length)
decreasing_by
  all_goals simp_wf
  all_goals
    first
      | exact Prod.Lex.left _ _
          (Nat.lt_of_le_of_lt (unvisitedCount_mono r hv2)
            (unvisitedCount_lt r (mem_keys_of_lookup hl) hmem))
      | exact Prod.Lex.left _ _ (unvisitedCount_lt r (mem_keys_of_lookup hl) hmem)
      | (rw [unvisitedCount_cons_of_none hl]
         exact Prod.Lex.right _ (Nat.lt_succ_self _))
      | exact Prod.Lex.right _ (Nat.lt_succ_self _)

/-- Go `Registry.Update`: validation, existence and dependency checks, then
cycle detection against the new deps, all before the single commit. -/
def Registry.Update (r : Registry) (t : Task) : Registry × Option RegErr :=
  match t.Validate with
  | some e => (r, some (.invalidTask e))
  | none =>
    if (r.lookup t.id).isNone then (r, some (.notFound t.id))
    else
      match r.validateDeps t with
      | some e => (r, some e)
      | none =>
        match checkCircularGo r t.id t.deps [] with
        | .error _ => (r, some (.circular t.id))
        | .ok _ => ({ r with tasks := mapInsert r.tasks t.id t }, none)

/-! ### Persistence protocol (Go `Registry.Save` / `Registry.Load`)

The single on-disk task file is modeled as an explicit value: `empty` (file
absent or zero length), `data d` (well-formed JSON `{version, tasks}`), or
`corrupt` (present but undecodable).  The advisory file locks serialize the
read-check-write sequence; sequentially the locked body is what is modeled.
The physical write of marshaled bytes is treated as succeeding. -/

/-- Go `registryData`, the JSON structure `{version, tasks}`. -/
structure RegistryData where
  version : Int
  tasks : List Task
deriving Repr, DecidableEq

/-- The on-disk state of the task file. -/
inductive FileContent where
  | empty
  | data (d : RegistryData)
  | corrupt
deriving Repr, DecidableEq

/-- Go `Registry.Save`: with the exclusive lock held, decode the on-disk
version when the file is non-empty and compare it with the in-memory
version; on mismatch fail with a version conflict before mutating anything;
otherwise increment the in-memory version and write the full task set with
the new version.  Returns (post-call registry, post-call file, error). -/
def Registry.Save (r : Registry) (f : FileContent) :
    Registry × FileContent × Option RegErr :=
  match f with
  | .corrupt => (r, f, some .decodeFailed)
  | .data d =>
    if d.version ≠ r.version then
      (r, f, some (.versionConflict r.version d.version))
    else
      let v := r.version + 1
      ({ r with version := v },
       .data { version := v, tasks := r.tasks.map Prod.snd }, none)
  | .empty =>
    let v := r.version + 1
    ({ r with version := v },
     .data { version := v, tasks := r.tasks.map Prod.snd }, none)

/-- First pass of Go `Registry.Load`: insert each decoded task after
intrinsic validation, stopping at the first invalid task with the partially
rebuilt map (mirroring the in-place mutation of the Go receiver). -/
def loadTasks : List Task → List (String × Task) →
    List (String × Task) × Option RegErr
  | [], m => (m, none)
  | t :: ts, m =>
    match t.Validate with
    | some e => (m, some (.loadInvalidTask t.id e))
    | none => loadTasks ts (mapInsert m t.id t)

/-- Go `Registry.Load`: decode `{version, tasks}`, replace the task map
wholesale and adopt the on-disk version, then validate each task and every
dependency edge.  Decode failures leave the registry untouched; validation
failures happen after the map and version have been replaced. -/
def Registry.Load (r : Registry) (f : FileContent) : Registry × Option RegErr :=
  match f with
  | .empty => (r, some .decodeFailed)
  | .corrupt => (r, some .decodeFailed)
  | .data d =>
    match loadTasks d.tasks [] with
    | (m, some e) => ({ tasks := m, version := d.version }, some e)
    | (m, none) =>
      let r' : Registry := { tasks := m, version := d.version }
      match m.find? (fun p => (r'.validateDeps p.2).isSome) with
      | some p => (r', some (.depNotFound
          ((p.2.deps.find? (fun dep => (r'.lookup dep).isNone)).getD "")))
      | none => (r', none)

/-! ### Circuit breaker (pkg/agent, retry.go) -/

/-- Go `CircuitState`. -/
inductive CircuitState where
  | closed
  | open_
  | halfOpen
deriving Repr, DecidableEq

/-- Go `CircuitBreaker`: state, consecutive-failure counter, time of the
most recent failure, and the two configuration fields. -/
structure CircuitBreaker where
  state : CircuitState
  failures : Nat
  lastFailureTime : Nat
  failureThreshold : Nat
  resetTimeout : Nat
deriving Repr, DecidableEq

/-- Go `NewCircuitBreaker` (the zero `time.Time` is instant 0). -/
def NewCircuitBreaker (failureThreshold : Nat) (resetTimeout : Nat) : CircuitBreaker :=
  { state := .closed
    failures := 0
    lastFailureTime := 0
    failureThreshold := failureThreshold
    resetTimeout := resetTimeout }

/-- Outcome of one `CircuitBreaker.Call`: either the call was rejected with
the "circuit breaker is open" error without invoking the wrapped function,
or the function was invoked and produced `res` (`none` = success). -/
inductive CallOutcome (ε : Type) where
  | rejected
  | invoked (res : Option ε)
deriving Repr, DecidableEq

/-- Go `CircuitBreaker.Call`.  `now` stands for the current instant (used by
`time.Since` and `time.Now()`), and `res` is the result the wrapped function
produces if it is invoked. -/
def CircuitBreaker.Call {ε : Type} (cb : CircuitBreaker) (now : Nat)
    (res : Option ε) : CircuitBreaker × CallOutcome ε :=
  let step1 : Option CircuitBreaker :=
    match cb.state with
    | .open_ =>
      if now - cb.lastFailureTime > cb.resetTimeout then
        some { cb with state := .halfOpen, failures := 0 }
      else none
    | _ => some cb
  match step1 with
  | none => (cb, .rejected)
  | some cb1 =>
    match res with
    | some e =>
      let fails := cb1.failures + 1
      ({ cb1 with
          failures := fails
          lastFailureTime := now
          state := if fails ≥ cb1.failureThreshold then .open_ else cb1.state },
       .invoked (some e))
    | none =>
      ({ cb1 with
          failures := 0
          state := if cb1.state = .halfOpen then .closed else cb1.state },
       .invoked none)

/-! ### Retry with backoff (Go `RetryableBackend.retryWithBackoff`)

Sleeping only advances time, so backoff arithmetic is abstracted into the
instants `times a` at which attempt `a` runs; `fnRes k` is the result of the
`k`-th actual invocation of the wrapped function, and `cancelled a` tells
whether the caller's context is done at the sleep before attempt `a + 1`. -/

/-- Errors surfaced by one trip through the circuit breaker. -/
inductive CallErr (ε : Type) where
  | breakerOpen
  | fnErr (e : ε)
deriving Repr, DecidableEq

/-- Result of Go `retryWithBackoff`. -/
inductive RetryResult (ε : Type) where
  | ok
  | maxRetriesExceeded (last : CallErr ε)
  | cancelled
deriving Repr, DecidableEq

/-- The retry loop body: `a` is the attempt index, `rem` the number of
attempts still allowed after this one (`maxRetries - a`), `k` the number of
wrapped-function invocations so far.  Returns the result together with the
total number of invocations. -/
def retryAux {ε : Type} (times : Nat → Nat) (fnRes : Nat → Option ε)
    (cancelled : Nat → Bool) :
    Nat → Nat → CircuitBreaker → Nat → RetryResult ε × Nat
  | a, rem, cb, k =>
    match CircuitBreaker.Call cb (times a) (fnRes k) with
    | (_, .invoked none) => (.ok, k + 1)
    | (cb', outcome) =>
      let k' := match outcome with
        | .rejected => k
        | .invoked _ => k + 1
      let err : CallErr ε := match outcome with
        | .invoked (some e) => .fnErr e
        | _ => .breakerOpen
      match rem with
      | 0 => (.maxRetriesExceeded err, k')
      | rem' + 1 =>
        if cancelled a then (.cancelled, k')
        else retryAux times fnRes cancelled (a + 1) rem' cb' k'

/-- Go `retryWithBackoff` for a config with `MaxRetries` and circuit breaker
settings: runs attempts `0 .. maxRetries` through a fresh breaker. -/
def retryWithBackoff {ε : Type} (maxRetries failureThreshold resetTimeout : Nat)
    (times : Nat → Nat) (fnRes : Nat → Option ε) (cancelled : Nat → Bool) :
    RetryResult ε × Nat :=
  retryAux times fnRes cancelled 0 maxRetries
    (NewCircuitBreaker failureThreshold resetTimeout) 0

/-! ### Basic lemmas about the association-list map -/

theorem lookupKey_eraseKey (m : List (String × Task)) (k k' : String) :
    lookupKey (eraseKey m k) k' = if k' = k then none else lookupKey m k' := by
  induction m with
  | nil => simp [eraseKey, lookupKey]
  | cons p m ih =>
    by_cases hpk : p.1 = k
    · have h1 : eraseKey (p :: m) k = eraseKey m k := by simp [eraseKey, hpk]
      rw [h1, ih]
      by_cases hk' : k' = k
      · simp [hk']
      · have hpk' : ¬ p.1 = k' := by
          rw [hpk]
          exact fun h => hk' h.symm
        simp [hk', lookupKey, hpk']
    · have h1 : eraseKey (p :: m) k = p :: eraseKey m k := by simp [eraseKey, hpk]
      rw [h1]
      by_cases hpk' : p.1 = k'
      · have hk' : ¬ k' = k := fun h => hpk (by rw [hpk', h])
        simp [lookupKey, hpk', hk']
      · simp [lookupKey, hpk', ih]

theorem lookupKey_append (m₁ m₂ : List (String × Task)) (k : String) :
    lookupKey (m₁ ++ m₂) k =
      match lookupKey m₁ k with
      | some v => some v
      | none => lookupKey m₂ k := by
  induction m₁ with
  | nil => simp [lookupKey]
  | cons p m ih =>
    by_cases hp : p.1 = k
    · simp [lookupKey, hp]
    · simp [lookupKey, hp, ih]

theorem lookupKey_mapInsert (m : List (String × Task)) (k : String) (v : Task)
    (k' : String) :
    lookupKey (mapInsert m k v) k' = if k' = k then some v else lookupKey m k' := by
  unfold mapInsert
  rw [lookupKey_append, lookupKey_eraseKey]
  by_cases hk : k' = k
  · simp [hk, lookupKey]
  · have hk2 : ¬ k = k' := fun h => hk h.symm
    simp only [hk, if_false]
    cases lookupKey m k' with
    | none => simp [lookupKey, hk2]
    | some t => simp

theorem eraseKey_eq_self {m : List (String × Task)} {k : String}
    (h : k ∉ m.map Prod.fst) : eraseKey m k = m := by
  unfold eraseKey
  refine List.filter_eq_self.mpr ?_
  intro p hp
  simp only [ne_eq, decide_eq_true_eq]
  intro hpk
  exact h (List.mem_map.mpr ⟨p, hp, hpk⟩)

/-! ### C4: the status state machine -/

/-- C4: `SetStatus` succeeds exactly on self-transitions and on the four
allowed transitions; other transitions from a known status fail with an
`invalidTransition` error naming both states; an unknown current status
fails with `unknownStatus`; `updatedAt` is refreshed exactly on accepted
transitions that change the status (the task is returned unchanged in every
other case). -/
theorem setStatus_transition_law (t : Task) (target : Status) (now : Nat) :
    ((t.SetStatus target now).2 = none ↔
      (target = t.status ∨
        (t.status = StatusPending ∧ target = StatusInProgress) ∨
        (t.status = StatusInProgress ∧ target = StatusComplete) ∨
        (t.status = StatusInProgress ∧ target = StatusFailed) ∨
        (t.status = StatusFailed ∧ target = StatusPending))) ∧
    (target ≠ t.status → ¬(t.status.isValid = true) →
      (t.SetStatus target now).2 = some (.unknownStatus t.status)) ∧
    (target ≠ t.status → t.status.isValid = true →
      ¬((t.status = StatusPending ∧ target = StatusInProgress) ∨
        (t.status = StatusInProgress ∧ target = StatusComplete) ∨
        (t.status = StatusInProgress ∧ target = StatusFailed) ∨
        (t.status = StatusFailed ∧ target = StatusPending)) →
      (t.SetStatus target now).2 = some (.invalidTransition t.status target)) ∧
    ((t.SetStatus target now).2 = none → target ≠ t.status →
      (t.SetStatus target now).1 = { t with status := target, updatedAt := now }) ∧
    (target = t.status → (t.SetStatus target now).1 = t) ∧
    ((t.SetStatus target now).2 ≠ none → (t.SetStatus target now).1 = t) := by
  obtain ⟨tid, ttl, dsc, st, pri, rp, dp, sr, ca, ua⟩ := t
  by_cases hself : st = target
  · subst hself
    simp [Task.SetStatus]
  · have hself' : ¬ target = st := fun h => hself h.symm
    by_cases hp : st = StatusPending
    · subst hp
      by_cases ht : target = StatusInProgress
      · subst ht
        simp [Task.SetStatus, validTransitions, Status.isValid,
          StatusPending, StatusInProgress, StatusComplete, StatusFailed]
      · simp only [StatusPending, StatusInProgress, StatusComplete,
          StatusFailed] at hself hself' ht
        simp [Task.SetStatus, validTransitions, Status.isValid, hself, hself', ht,
          StatusPending, StatusInProgress, StatusComplete, StatusFailed]
    · by_cases hi : st = StatusInProgress
      · subst hi
        by_cases ht : target = StatusComplete
        · subst ht
          simp [Task.SetStatus, validTransitions, Status.isValid,
            StatusPending, StatusInProgress, StatusComplete, StatusFailed]
        · by_cases ht2 : target = StatusFailed
          · subst ht2
            simp [Task.SetStatus, validTransitions, Status.isValid,
              StatusPending, StatusInProgress, StatusComplete, StatusFailed]
          · simp only [StatusPending, StatusInProgress, StatusComplete,
              StatusFailed] at hself hself' ht ht2
            simp [Task.SetStatus, validTransitions, Status.isValid, hself, hself',
              ht, ht2, StatusPending, StatusInProgress, StatusComplete, StatusFailed]
      · by_cases hc : st = StatusComplete
        · subst hc
          simp only [StatusPending, StatusInProgress, StatusComplete,
            StatusFailed] at hself hself'
          simp [Task.SetStatus, validTransitions, Status.isValid, hself, hself',
            StatusPending, StatusInProgress, StatusComplete, StatusFailed]
        · by_cases hf : st = StatusFailed
          · subst hf
            by_cases ht : target = StatusPending
            · subst ht
              simp [Task.SetStatus, validTransitions, Status.isValid,
                StatusPending, StatusInProgress, StatusComplete, StatusFailed]
            · simp only [StatusPending, StatusInProgress, StatusComplete,
                StatusFailed] at hself hself' ht
              simp [Task.SetStatus, validTransitions, Status.isValid, hself,
                hself', ht, StatusPending, StatusInProgress, StatusComplete,
                StatusFailed]
          · simp [Task.SetStatus, validTransitions, Status.isValid, hself, hself',
              hp, hi, hc, hf]

/-- Witness for C4 at a concrete accepted transition. -/
theorem setStatus_transition_law_witness :
    (Task.SetStatus { id := "a", title := "t", status := StatusPending }
      StatusInProgress 7).2 = none := by
  have h := setStatus_transition_law
    { id := "a", title := "t", status := StatusPending } StatusInProgress 7
  exact h.1.mpr (Or.inr (Or.inl ⟨rfl, rfl⟩))

/-! ### C5: characterization of GetReady -/

/-- C5: `GetReady` returns exactly the stored tasks whose status is pending
and all of whose dependency ids resolve to complete tasks; in particular a
pending task with no deps is returned, and a task of any other status or
with a missing or non-complete dependency is not. -/
theorem getReady_characterization (r : Registry) (t : Task) :
    t ∈ r.GetReady ↔
      (t ∈ r.tasks.map Prod.snd ∧ t.status = StatusPending ∧
        ∀ d ∈ t.deps, ∃ dep, r.lookup d = some dep ∧ dep.status = StatusComplete) := by
  unfold Registry.GetReady Registry.allDepsComplete
  rw [List.mem_filter]
  constructor
  · rintro ⟨hmem, hpred⟩
    rw [Bool.and_eq_true, decide_eq_true_eq, List.all_eq_true] at hpred
    refine ⟨hmem, hpred.1, ?_⟩
    intro d hd
    have h2 := hpred.2 d hd
    cases hl : r.lookup d with
    | none => rw [hl] at h2; simp at h2
    | some dep =>
      rw [hl] at h2
      simp only [decide_eq_true_eq] at h2
      exact ⟨dep, rfl, h2⟩
  · rintro ⟨hmem, hstat, hdeps⟩
    refine ⟨hmem, ?_⟩
    rw [Bool.and_eq_true, decide_eq_true_eq, List.all_eq_true]
    refine ⟨hstat, ?_⟩
    intro d hd
    obtain ⟨dep, hl, hc⟩ := hdeps d hd
    rw [hl]
    simpa using hc

/-- Witness for C5: a pending task whose single dependency is complete is
ready. -/
theorem getReady_characterization_witness :
    ({ id := "b", title := "B", status := StatusPending, deps := ["a"] } : Task) ∈
      Registry.GetReady
        { tasks :=
            [("a", { id := "a", title := "A", status := StatusComplete }),
             ("b", { id := "b", title := "B", status := StatusPending, deps := ["a"] })],
          version := 0 } := by
  refine (getReady_characterization _ _).mpr ⟨by simp, rfl, ?_⟩
  intro d hd
  have hda : d = "a" := by simpa using hd
  subst hda
  exact ⟨{ id := "a", title := "A", status := StatusComplete }, by decide, rfl⟩

/-! ### C2: the optimistic-concurrency protocol of Save -/

/-- C2: when the on-disk file is non-empty and decodes to a version
different from the in-memory one, `Save` fails with a version-conflict
error (a constructor distinct from the I/O and decode errors) leaving both
the file and the in-memory registry untouched; when the versions match, or
the file is empty, `Save` increments the in-memory version exactly once and
writes the full task set together with that new version. -/
theorem save_optimistic_concurrency (r : Registry) (d : RegistryData) :
    (d.version ≠ r.version →
      r.Save (.data d) = (r, .data d, some (.versionConflict r.version d.version))) ∧
    (d.version = r.version →
      r.Save (.data d) =
        ({ r with version := r.version + 1 },
          .data { version := r.version + 1, tasks := r.tasks.map Prod.snd }, none)) ∧
    r.Save .empty =
      ({ r with version := r.version + 1 },
        .data { version := r.version + 1, tasks := r.tasks.map Prod.snd }, none) := by
  refine ⟨fun h => ?_, fun h => ?_, ?_⟩
  · simp [Registry.Save, h]
  · simp [Registry.Save, h]
  · simp [Registry.Save]

/-- Witness for C2 at a concrete conflicting save. -/
theorem save_optimistic_concurrency_witness :
    Registry.Save NewRegistry (.data { version := 5, tasks := [] }) =
      (NewRegistry, .data { version := 5, tasks := [] },
        some (.versionConflict 0 5)) :=
  (save_optimistic_concurrency NewRegistry { version := 5, tasks := [] }).1
    (by decide)

/-! ### C3: Save/Load round trip -/

theorem loadTasks_ok {ts : List Task} {m m' : List (String × Task)}
    (h : loadTasks ts m = (m', none)) :
    m' = ts.foldl (fun acc t => mapInsert acc t.id t) m := by
  induction ts generalizing m with
  | nil =>
    simp only [loadTasks, Prod.mk.injEq, and_true] at h
    simpa using h.symm
  | cons t ts ih =>
    cases hv : t.Validate with
    | some e =>
      rw [loadTasks, hv] at h
      simp at h
    | none =>
      rw [loadTasks, hv] at h
      simpa using ih h

theorem foldl_mapInsert_fresh {vals : List Task} {acc : List (String × Task)}
    (hnd : (vals.map Task.id).Nodup)
    (hdisj : ∀ t ∈ vals, t.id ∉ acc.map Prod.fst) :
    vals.foldl (fun acc t => mapInsert acc t.id t) acc =
      acc ++ vals.map (fun t => (t.id, t)) := by
  induction vals generalizing acc with
  | nil => simp
  | cons t vals ih =>
    rw [List.map_cons, List.nodup_cons] at hnd
    obtain ⟨hhead, htail⟩ := hnd
    have hins : mapInsert acc t.id t = acc ++ [(t.id, t)] := by
      unfold mapInsert
      rw [eraseKey_eq_self (hdisj t (List.mem_cons_self t vals))]
    have hdisj' : ∀ u ∈ vals, u.id ∉ (acc ++ [(t.id, t)]).map Prod.fst := by
      intro u hu
      simp only [List.map_append, List.mem_append, List.map_cons, List.map_nil,
        List.mem_singleton]
      rintro (hacc | hid)
      · exact hdisj u (List.mem_cons_of_mem _ hu) hacc
      · exact hhead (List.mem_map.mpr ⟨u, hu, hid⟩)
    rw [List.map_cons, List.foldl_cons, hins, ih htail hdisj',
      List.append_assoc, List.singleton_append]

theorem map_reassemble {m : List (String × Task)}
    (hkc : ∀ p ∈ m, p.1 = p.2.id) :
    m.map (fun p => (p.2.id, p.2)) = m := by
  induction m with
  | nil => rfl
  | cons p m ih =>
    have h1 := hkc p (List.mem_cons_self p m)
    rw [List.map_cons, ih (fun q hq => hkc q (List.mem_cons_of_mem _ hq))]
    exact congrArg (· :: m) (Prod.ext h1.symm rfl)

/-- Loading a file that `Save` just wrote rebuilds exactly the saved task
map and adopts the written version. -/
theorem load_of_saved (r : Registry) (v : Int)
    (hkc : ∀ p ∈ r.tasks, p.1 = p.2.id)
    (hnd : (r.tasks.map Prod.fst).Nodup)
    (hload : (Registry.Load NewRegistry
      (.data { version := v, tasks := r.tasks.map Prod.snd })).2 = none) :
    (Registry.Load NewRegistry
      (.data { version := v, tasks := r.tasks.map Prod.snd })).1 =
      { tasks := r.tasks, version := v } := by
  have hids : (r.tasks.map Prod.snd).map Task.id = r.tasks.map Prod.fst := by
    rw [List.map_map]
    exact List.map_congr_left fun p hp => (hkc p hp).symm
  rcases hlt : loadTasks (r.tasks.map Prod.snd) [] with ⟨m, e⟩
  cases e with
  | some err =>
    rw [Registry.Load, hlt] at hload
    simp at hload
  | none =>
    have hm : m = r.tasks := by
      have h1 := loadTasks_ok hlt
      rw [foldl_mapInsert_fresh (hids ▸ hnd) (by simp)] at h1
      rw [h1, List.nil_append, List.map_map]
      exact map_reassemble hkc
    subst hm
    simp only [Registry.Load, hlt] at hload ⊢
    split at hload
    · simp at hload
    · rfl

/-- C3: if `Save` succeeds and a fresh registry then successfully `Load`s
the written file, the loaded registry holds an identical task set (the
lookup of every id agrees, hence same ids, titles, statuses and deps) and
its in-memory version is the version `Save` wrote to disk.  The two
hypotheses `hkc`/`hnd` state that `tasks` is a genuine Go map keyed by task
id: each entry's key is its task's `ID` and keys are unique. -/
theorem save_load_roundtrip (r : Registry) (f : FileContent)
    (hkc : ∀ p ∈ r.tasks, p.1 = p.2.id)
    (hnd : (r.tasks.map Prod.fst).Nodup)
    (hsave : (r.Save f).2.2 = none)
    (hload : (Registry.Load NewRegistry (r.Save f).2.1).2 = none) :
    (∀ id, (Registry.Load NewRegistry (r.Save f).2.1).1.lookup id =
      (r.Save f).1.lookup id) ∧
    (∃ d, (r.Save f).2.1 = .data d ∧
      (Registry.Load NewRegistry (r.Save f).2.1).1.version = d.version) := by
  have main : ∀ (v : Int), (r.Save f).2.1 = .data { version := v, tasks := r.tasks.map Prod.snd } →
      (r.Save f).1.tasks = r.tasks →
      (∀ id, (Registry.Load NewRegistry (r.Save f).2.1).1.lookup id =
        (r.Save f).1.lookup id) ∧
      (∃ d, (r.Save f).2.1 = .data d ∧
        (Registry.Load NewRegistry (r.Save f).2.1).1.version = d.version) := by
    intro v hfile htasks
    rw [hfile] at hload ⊢
    have hl := load_of_saved r v hkc hnd hload
    rw [hl]
    refine ⟨?_, ⟨_, rfl, rfl⟩⟩
    intro id
    unfold Registry.lookup
    rw [htasks]
  cases f with
  | corrupt => simp [Registry.Save] at hsave
  | empty =>
    refine main (r.version + 1) ?_ ?_ <;> simp [Registry.Save]
  | data d =>
    by_cases hv : d.version = r.version
    · refine main (r.version + 1) ?_ ?_ <;> simp [Registry.Save, hv]
    · simp [Registry.Save, hv] at hsave

/-- Witness for C3 on a one-task registry saved to an empty file. -/
theorem save_load_roundtrip_witness :
    (Registry.Load NewRegistry
        ((Registry.Save
          { tasks := [("a", { id := "a", title := "A", status := StatusPending })],
            version := 0 } .empty).2.1)).1.lookup "a" =
      (Registry.Save
        { tasks := [("a", { id := "a", title := "A", status := StatusPending })],
          version := 0 } .empty).1.lookup "a" :=
  (save_load_roundtrip
    { tasks := [("a", { id := "a", title := "A", status := StatusPending })],
      version := 0 }
    .empty (by decide) (by decide) (by decide) (by decide)).1 "a"

/-! ### C10: rejected calls leave the open breaker untouched -/

/-- C10: a Call made while the breaker is Open, before `resetTimeout` has
elapsed since the last failure, is rejected (the wrapped function is not
invoked) and the entire breaker state — state, failures, lastFailureTime
and configuration — is returned unchanged, so rejected calls never postpone
the Open→HalfOpen transition, which is timed solely from the last recorded
failure. -/
theorem open_rejection_frame {ε : Type} (cb : CircuitBreaker) (now : Nat)
    (res : Option ε)
    (hopen : cb.state = .open_)
    (hbefore : ¬ (now - cb.lastFailureTime > cb.resetTimeout)) :
    cb.Call now res = (cb, .rejected) := by
  simp [CircuitBreaker.Call, hopen, hbefore]

/-- Witness for C10 at a concrete open breaker. -/
theorem open_rejection_frame_witness :
    CircuitBreaker.Call (ε := Unit)
      { state := .open_, failures := 3, lastFailureTime := 5,
        failureThreshold := 3, resetTimeout := 10 } 7 none =
      ({ state := .open_, failures := 3, lastFailureTime := 5,
         failureThreshold := 3, resetTimeout := 10 }, .rejected) :=
  open_rejection_frame _ 7 none rfl (by decide)

/-! ### C7: the threshold/reset scenario -/

/-- C7: from a fresh breaker with `failureThreshold = 3`, three consecutive
failing calls move the breaker to Open; a fourth call made no more than
`resetTimeout` after the last failure is rejected without invoking the
wrapped function; the first call made strictly more than `resetTimeout`
after the last failure does invoke the function, and when that invocation
succeeds the breaker is Closed with its failure count reset to 0. -/
theorem circuitBreaker_threshold_scenario {ε : Type} (rt t1 t2 t3 t4 t5 : Nat)
    (e1 e2 e3 : ε) (r4 r5 : Option ε)
    (h4 : t4 - t3 ≤ rt) (h5 : t5 - t3 > rt) :
    ((((NewCircuitBreaker 3 rt).Call t1 (some e1)).1.Call t2 (some e2)).1.Call
        t3 (some e3)).1.state = .open_ ∧
    ((((NewCircuitBreaker 3 rt).Call t1 (some e1)).1.Call t2 (some e2)).1.Call
        t3 (some e3)).1.Call t4 r4 =
      (((((NewCircuitBreaker 3 rt).Call t1 (some e1)).1.Call t2 (some e2)).1.Call
        t3 (some e3)).1, .rejected) ∧
    (((((NewCircuitBreaker 3 rt).Call t1 (some e1)).1.Call t2 (some e2)).1.Call
        t3 (some e3)).1.Call t5 r5).2 = .invoked r5 ∧
    (((((NewCircuitBreaker 3 rt).Call t1 (some e1)).1.Call t2 (some e2)).1.Call
        t3 (some e3)).1.Call t5 (none : Option ε)).1.state = .closed ∧
    (((((NewCircuitBreaker 3 rt).Call t1 (some e1)).1.Call t2 (some e2)).1.Call
        t3 (some e3)).1.Call t5 (none : Option ε)).1.failures = 0 := by
  have hcb3 : ((((NewCircuitBreaker 3 rt).Call t1 (some e1)).1.Call
      t2 (some e2)).1.Call t3 (some e3)).1 =
      { state := .open_, failures := 3, lastFailureTime := t3,
        failureThreshold := 3, resetTimeout := rt } := by
    simp [NewCircuitBreaker, CircuitBreaker.Call]
  rw [hcb3]
  have h4' : ¬ (t4 - t3 > rt) := by omega
  refine ⟨rfl, ?_, ?_, ?_, ?_⟩
  · simp [CircuitBreaker.Call, h4', h5]
  · cases r5 <;> simp [CircuitBreaker.Call, h4', h5]
  · simp [CircuitBreaker.Call, h4', h5]
  · simp [CircuitBreaker.Call, h4', h5]

/-- Witness for C7 at concrete times. -/
theorem circuitBreaker_threshold_scenario_witness :
    ((((NewCircuitBreaker 3 10).Call 1 (some ())).1.Call 2 (some ())).1.Call
        3 (some ())).1.state = .open_ :=
  (circuitBreaker_threshold_scenario 10 1 2 3 4 100 () () ()
    (none : Option Unit) (none : Option Unit) (by decide) (by decide)).1

/-! ### C8: the fate of a HalfOpen breaker -/

/-- Counterexample for C8: a breaker in HalfOpen (reached from a fresh
threshold-3 breaker by three failures and one failing probe after the
timeout) that fails its next call stays HalfOpen — it does not return to
Open, because the failure counter (1) is below the threshold (3). -/
theorem halfOpen_failure_not_reopen_counterexample :
    (((((NewCircuitBreaker 3 10).Call 1 (some 0)).1.Call 2 (some 0)).1.Call
        3 (some 0)).1.Call 100 (some (0 : Nat))).1.state = .halfOpen ∧
    ((((((NewCircuitBreaker 3 10).Call 1 (some 0)).1.Call 2 (some 0)).1.Call
        3 (some 0)).1.Call 100 (some (0 : Nat))).1.Call 101 (some (0 : Nat))).1.state
      = .halfOpen ∧
    ((((((NewCircuitBreaker 3 10).Call 1 (some 0)).1.Call 2 (some 0)).1.Call
        3 (some 0)).1.Call 100 (some (0 : Nat))).1.Call 101 (some (0 : Nat))).1.state
      ≠ .open_ := by
  decide

/-- C8 amended: when the breaker is HalfOpen the next Call's outcome decides
its fate as follows — a success returns it to Closed with the failure
counter reset to zero; a failure increments the counter, records the
failure time, and returns the breaker to Open only once the counter reaches
`failureThreshold`, otherwise the breaker remains HalfOpen. -/
theorem halfOpen_call_outcome {ε : Type} (cb : CircuitBreaker) (now : Nat) (e : ε)
    (h : cb.state = .halfOpen) :
    (cb.Call now (none : Option ε)).1.state = .closed ∧
    (cb.Call now (none : Option ε)).1.failures = 0 ∧
    (cb.Call now (none : Option ε)).2 = .invoked none ∧
    (cb.Call now (some e)).1.failures = cb.failures + 1 ∧
    (cb.Call now (some e)).1.lastFailureTime = now ∧
    (cb.Call now (some e)).2 = .invoked (some e) ∧
    (cb.Call now (some e)).1.state =
      (if cb.failures + 1 ≥ cb.failureThreshold then .open_ else .halfOpen) := by
  refine ⟨?_, ?_, ?_, ?_, ?_, ?_, ?_⟩ <;> simp [CircuitBreaker.Call, h]

/-- Witness for C8's amended statement at a concrete half-open breaker. -/
theorem halfOpen_call_outcome_witness :
    (CircuitBreaker.Call (ε := Unit)
      { state := .halfOpen, failures := 0, lastFailureTime := 0,
        failureThreshold := 3, resetTimeout := 10 } 5 none).1.state = .closed :=
  (halfOpen_call_outcome
    { state := .halfOpen, failures := 0, lastFailureTime := 0,
      failureThreshold := 3, resetTimeout := 10 } 5 () rfl).1

/-! ### C9: the retry scenario -/

/-- C9: with `MaxRetries = 3` (and a failure threshold the scenario does
not trip), an operation that fails on its first two invocations and
succeeds on the third makes `retryWithBackoff` return success with exactly
3 invocations of the wrapped function; and when every allowed invocation
fails, the wrapper returns the last underlying error wrapped as a
max-retries-exceeded error (after the full 4 invocations). -/
theorem retry_scenario {ε : Type} (thr rt : Nat) (times : Nat → Nat)
    (cancelled : Nat → Bool) (fnRes : Nat → Option ε)
    (hcancel : ∀ a, cancelled a = false) :
    ((fnRes 0).isSome → (fnRes 1).isSome → fnRes 2 = none → 2 < thr →
      retryWithBackoff 3 thr rt times fnRes cancelled = (.ok, 3)) ∧
    ((∀ k, k ≤ 3 → (fnRes k).isSome) → 3 < thr →
      ∃ e, fnRes 3 = some e ∧
        retryWithBackoff 3 thr rt times fnRes cancelled =
          (.maxRetriesExceeded (.fnErr e), 4)) := by
  constructor
  · intro h0 h1 h2 hthr
    obtain ⟨x0, hx0⟩ := Option.isSome_iff_exists.mp h0
    obtain ⟨x1, hx1⟩ := Option.isSome_iff_exists.mp h1
    have hs1 : ¬ thr ≤ 1 := by omega
    have hs2 : ¬ thr ≤ 2 := by omega
    simp [retryWithBackoff, retryAux, NewCircuitBreaker, CircuitBreaker.Call,
      hx0, hx1, h2, hcancel, hs1, hs2]
  · intro hall hthr
    obtain ⟨x0, hx0⟩ := Option.isSome_iff_exists.mp (hall 0 (by omega))
    obtain ⟨x1, hx1⟩ := Option.isSome_iff_exists.mp (hall 1 (by omega))
    obtain ⟨x2, hx2⟩ := Option.isSome_iff_exists.mp (hall 2 (by omega))
    obtain ⟨x3, hx3⟩ := Option.isSome_iff_exists.mp (hall 3 (by omega))
    have hs1 : ¬ thr ≤ 1 := by omega
    have hs2 : ¬ thr ≤ 2 := by omega
    have hs3 : ¬ thr ≤ 3 := by omega
    refine ⟨x3, hx3, ?_⟩
    simp [retryWithBackoff, retryAux, NewCircuitBreaker, CircuitBreaker.Call,
      hx0, hx1, hx2, hx3, hcancel, hs1, hs2, hs3]

/-- Witness for C9: fails twice, then succeeds. -/
theorem retry_scenario_witness :
    retryWithBackoff (ε := Nat) 3 5 60 (fun _ => 0)
      (fun k => if k < 2 then some k else none) (fun _ => false) = (.ok, 3) :=
  (retry_scenario 5 60 (fun _ => 0) (fun _ => false)
    (fun k => if k < 2 then some k else none) (fun _ => rfl)).1
    (by decide) (by decide) (by decide) (by decide)

/-! ### C6: error atomicity -/

/-- Counterexample for C6: a Load that fails dependency validation returns
an error but has already replaced the in-memory task map and adopted the
on-disk version, so the registry is not as it was before the call. -/
theorem load_failure_mutates_registry :
    (Registry.Load
        { tasks := [("a", { id := "a", title := "A", status := StatusPending })],
          version := 1 }
        (.data { version := 7,
                 tasks := [{ id := "x", title := "X", status := StatusPending,
                             deps := ["missing"] }] })).2.isSome = true ∧
    (Registry.Load
        { tasks := [("a", { id := "a", title := "A", status := StatusPending })],
          version := 1 }
        (.data { version := 7,
                 tasks := [{ id := "x", title := "X", status := StatusPending,
                             deps := ["missing"] }] })).1 ≠
      { tasks := [("a", { id := "a", title := "A", status := StatusPending })],
        version := 1 } := by
  decide

/-- C6 amended: Add, Update and Delete leave the in-memory registry
unchanged whenever they return an error (in particular a rejected Update
that would introduce a cycle); Save leaves both the registry and the file
unchanged on error; a Load that fails to decode (empty or corrupt file)
leaves the registry unchanged; but a Load of decodable content that fails
validation replaces the task map (with the tasks inserted up to the point
of failure) and adopts the on-disk version before returning its error. -/
theorem error_atomicity_amended (r : Registry) (t : Task) (id : String)
    (f : FileContent) :
    ((r.Add t).2.isSome → (r.Add t).1 = r) ∧
    ((r.Update t).2.isSome → (r.Update t).1 = r) ∧
    ((r.Delete id).2.isSome → (r.Delete id).1 = r) ∧
    ((r.Save f).2.2.isSome → (r.Save f).1 = r ∧ (r.Save f).2.1 = f) ∧
    (f = .empty ∨ f = .corrupt → (r.Load f).1 = r) ∧
    (∀ d, (r.Load (.data d)).2.isSome →
      (r.Load (.data d)).1 =
        { tasks := (loadTasks d.tasks []).1, version := d.version }) := by
  refine ⟨?_, ?_, ?_, ?_, ?_, ?_⟩
  · unfold Registry.Add
    split
    · intro _; rfl
    · split
      · intro _; rfl
      · split
        · intro _; rfl
        · intro h; simp at h
  · unfold Registry.Update
    split
    · intro _; rfl
    · split
      · intro _; rfl
      · split
        · intro _; rfl
        · split
          · intro _; rfl
          · intro h; simp at h
  · unfold Registry.Delete
    split
    · intro _; rfl
    · split
      · intro _; rfl
      · intro h; simp at h
  · unfold Registry.Save
    split
    · intro _; exact ⟨rfl, rfl⟩
    · split
      · intro _; exact ⟨rfl, rfl⟩
      · intro h; simp at h
    · intro h; simp at h
  · rintro (rfl | rfl) <;> rfl
  · intro d _
    simp only [Registry.Load]
    rcases hlt : loadTasks d.tasks [] with ⟨m, e⟩
    cases e with
    | some err => simp
    | none =>
      split
      · rename_i m2 e2 heq
        simp at heq
      · rename_i m2 heq
        injection heq with h1 h2
        subst h1
        split <;> simp

/-- Witness for C6's amended statement: a rejected duplicate Add leaves the
registry unchanged. -/
theorem error_atomicity_amended_witness :
    (Registry.Add
      { tasks := [("a", { id := "a", title := "A", status := StatusPending })],
        version := 0 }
      { id := "a", title := "A2", status := StatusPending }).1 =
      { tasks := [("a", { id := "a", title := "A", status := StatusPending })],
        version := 0 } :=
  (error_atomicity_amended
    { tasks := [("a", { id := "a", title := "A", status := StatusPending })],
      version := 0 }
    { id := "a", title := "A2", status := StatusPending } "a" .empty).1
    (by decide)

/-! ### C1: the registry invariant

The dependency relation of a registry, the no-dangling-dependency property,
and acyclicity ("no task transitively depends on itself", i.e. the
transitive closure of the dependency relation is irreflexive). -/

/-- `depEdge r a b`: the task stored under `a` lists `b` among its deps. -/
def depEdge (r : Registry) (a b : String) : Prop :=
  ∃ t, r.lookup a = some t ∧ b ∈ t.deps

/-- Every dependency id of every stored task is itself a key. -/
def NoDangling (r : Registry) : Prop :=
  ∀ a t, r.lookup a = some t → ∀ d ∈ t.deps, (r.lookup d).isSome = true

/-- No task transitively depends on itself. -/
def AcyclicReg (r : Registry) : Prop :=
  ∀ x, ¬ Relation.TransGen (depEdge r) x x

/-- The registry invariant of the spec. -/
def InvReg (r : Registry) : Prop :=
  NoDangling r ∧ AcyclicReg r

/-! Generic lemmas about transitive closures used for the graph surgery:
every cycle either avoids a distinguished node `s` entirely (and then lives
in the sub-relation of edges not leaving `s`) or passes through `s`. -/

theorem transGen_avoid_or_through {α : Type} (rel : α → α → Prop) (s : α)
    {a b : α} (h : Relation.TransGen rel a b) :
    Relation.TransGen (fun x y => x ≠ s ∧ rel x y) a b ∨
      (Relation.ReflTransGen rel a s ∧ Relation.ReflTransGen rel s b) := by
  induction h using Relation.TransGen.head_induction_on with
  | base hab =>
    rename_i a'
    by_cases ha : a' = s
    · subst ha
      exact Or.inr ⟨.refl, .single hab⟩
    · exact Or.inl (.single ⟨ha, hab⟩)
  | ih hac hcb IH =>
    rename_i a' c'
    by_cases ha : a' = s
    · subst ha
      exact Or.inr ⟨.refl, (Relation.TransGen.head hac hcb).to_reflTransGen⟩
    · rcases IH with hmid | ⟨hcs, hsb⟩
      · exact Or.inl (hmid.head ⟨ha, hac⟩)
      · exact Or.inr ⟨hcs.head hac, hsb⟩

theorem transGen_of_not_reach {α : Type} {ro rn : α → α → Prop} {s : α}
    (hsub : ∀ a b, rn a b → a = s ∨ ro a b) {a b : α}
    (h : Relation.TransGen rn a b) :
    ¬ Relation.ReflTransGen ro a s →
      Relation.TransGen ro a b ∧ ¬ Relation.ReflTransGen ro b s := by
  induction h using Relation.TransGen.head_induction_on with
  | base hab =>
    rename_i a'
    intro hna
    have ha : a' ≠ s := fun heq => hna (heq ▸ Relation.ReflTransGen.refl)
    rcases hsub _ _ hab with heq | hro
    · exact absurd heq ha
    · exact ⟨.single hro, fun hbs => hna (hbs.head hro)⟩
  | ih hac hcb IH =>
    rename_i a' c'
    intro hna
    have ha : a' ≠ s := fun heq => hna (heq ▸ Relation.ReflTransGen.refl)
    rcases hsub _ _ hac with heq | hro
    · exact absurd heq ha
    · have hnc : ¬ Relation.ReflTransGen ro c' s := fun hcs => hna (hcs.head hro)
      obtain ⟨h1, h2⟩ := IH hnc
      exact ⟨h1.head hro, h2⟩

/-! Soundness of the visited-set DFS: whenever `checkCircularGo` returns
`ok`, every pending id is a non-`s` member of the final visited set, and
every newly visited node has had all its dependency edges checked. -/

theorem checkCircularGo_props (r : Registry) (s : String) :
    ∀ (l visited : List String) (v' : { v : List String // visited ⊆ v }),
      checkCircularGo r s l visited = .ok v' →
      (∀ d ∈ l, d ≠ s ∧ d ∈ v'.val) ∧
      (∀ x ∈ v'.val, x ∉ visited →
        x ≠ s ∧ ∀ t, r.lookup x = some t → ∀ d ∈ t.deps, d ≠ s ∧ d ∈ v'.val) := by
  intro l visited
  induction l, visited using checkCircularGo.induct r s with
  | case1 visited =>
    intro v' h
    simp only [checkCircularGo] at h
    cases h
    exact ⟨by simp, fun x hx hnx => absurd hx hnx⟩
  | case2 rest visited =>
    intro v' h
    simp only [checkCircularGo] at h
    simp at h
  | case3 d rest visited hds hmem IH =>
    intro v' h
    simp only [checkCircularGo] at h
    rw [if_neg hds, dif_pos hmem] at h
    obtain ⟨hC, hB⟩ := IH v' h
    exact ⟨fun d' hd' => by
      rcases List.mem_cons.mp hd' with rfl | hd''
      · exact ⟨hds, v'.property hmem⟩
      · exact hC d' hd'', hB⟩
  | case4 d rest visited hds hmem hl e herr IH =>
    intro v' h
    simp only [checkCircularGo] at h
    rw [if_neg hds, dif_neg hmem] at h
    split at h
    · simp [herr] at h
    · rename_i u heq
      rw [hl] at heq
      exact Option.noConfusion heq
  | case5 d rest visited hds hmem hl v2 hv2 hok IH =>
    intro v' h
    simp only [checkCircularGo] at h
    rw [if_neg hds, dif_neg hmem] at h
    split at h
    · rw [hok] at h
      simp only [] at h
      injection h with h2
      have hval : v'.val = v2 := (congrArg Subtype.val h2).symm
      obtain ⟨hC, hB⟩ := IH ⟨v2, hv2⟩ hok
      constructor
      · intro d' hd'
        rw [hval]
        rcases List.mem_cons.mp hd' with rfl | hd''
        · exact ⟨hds, hv2 (List.mem_cons_self _ _)⟩
        · exact hC d' hd''
      · intro x hx hnx
        rw [hval] at hx ⊢
        by_cases hxdv : x ∈ d :: visited
        · have hxd : x = d := by
            rcases List.mem_cons.mp hxdv with h' | h'
            · exact h'
            · exact absurd h' hnx
          subst hxd
          refine ⟨hds, ?_⟩
          intro t' hlt'
          rw [hl] at hlt'
          exact Option.noConfusion hlt'
        · exact hB x hx hxdv
    · rename_i u heq
      rw [hl] at heq
      exact Option.noConfusion heq
  | case6 d rest visited hds hmem t hl e herr IH =>
    intro v' h
    simp only [checkCircularGo] at h
    rw [if_neg hds, dif_neg hmem] at h
    split at h
    · rename_i heq
      rw [hl] at heq
      exact Option.noConfusion heq
    · rename_i u heq
      have hut : u = t := by
        rw [hl] at heq
        injection heq with h'
        exact h'.symm
      subst hut
      split at h
      · simp at h
      · rename_i v2' hv2' heq1
        rw [herr] at heq1
        exact Except.noConfusion heq1
  | case7 d rest visited hds hmem t hl v2 hv2 hok1 e herr2 IH1 IH2 =>
    intro v' h
    simp only [checkCircularGo] at h
    rw [if_neg hds, dif_neg hmem] at h
    split at h
    · rename_i heq
      rw [hl] at heq
      exact Option.noConfusion heq
    · rename_i u heq
      have hut : u = t := by
        rw [hl] at heq
        injection heq with h'
        exact h'.symm
      subst hut
      split at h
      · rename_i e2 heq1
        rw [hok1] at heq1
        exact Except.noConfusion heq1
      · rename_i v2' hv2' heq1
        have hveq : v2' = v2 := by
          rw [hok1] at heq1
          injection heq1 with h'
          exact (congrArg Subtype.val h').symm
        subst hveq
        split at h
        · simp at h
        · rename_i v3' hv3' heq2
          rw [herr2] at heq2
          exact Except.noConfusion heq2
  | case8 d rest visited hds hmem t hl v2 hv2 hok1 v3 hv3 hok2 IH1 IH2 =>
    intro v' h
    simp only [checkCircularGo] at h
    rw [if_neg hds, dif_neg hmem] at h
    split at h
    · rename_i heq
      rw [hl] at heq
      exact Option.noConfusion heq
    · rename_i u heq
      have hut : u = t := by
        rw [hl] at heq
        injection heq with h'
        exact h'.symm
      subst hut
      split at h
      · rename_i e2 heq1
        rw [hok1] at heq1
        exact Except.noConfusion heq1
      · rename_i v2' hv2' heq1
        have hveq : v2' = v2 := by
          rw [hok1] at heq1
          injection heq1 with h'
          exact (congrArg Subtype.val h').symm
        subst hveq
        split at h
        · rename_i e3 heq2
          rw [hok2] at heq2
          exact Except.noConfusion heq2
        · rename_i v3' hv3' heq2
          have hveq3 : v3' = v3 := by
            rw [hok2] at heq2
            injection heq2 with h'
            exact (congrArg Subtype.val h').symm
          subst hveq3
          injection h with h2
          have hval : v'.val = v3' := (congrArg Subtype.val h2).symm
          obtain ⟨hC1, hB1⟩ := IH1 ⟨v2', hv2'⟩ heq1
          obtain ⟨hC2, hB2⟩ := IH2 ⟨v3', hv3'⟩ heq2
          constructor
          · intro d' hd'
            rw [hval]
            rcases List.mem_cons.mp hd' with rfl | hd''
            · exact ⟨hds, hv3' (hv2' (List.mem_cons_self _ _))⟩
            · exact hC2 d' hd''
          · intro x hx hnx
            rw [hval] at hx ⊢
            by_cases hxv2 : x ∈ v2'
            · by_cases hxdv : x ∈ d :: visited
              · have hxd : x = d := by
                  rcases List.mem_cons.mp hxdv with h' | h'
                  · exact h'
                  · exact absurd h' hnx
                subst hxd
                refine ⟨hds, ?_⟩
                intro t' hlt' d' hd'
                have htt' : t' = u := by
                  rw [hl] at hlt'
                  injection hlt' with h'
                  exact h'.symm
                subst htt'
                obtain ⟨h1, h2⟩ := hC1 d' hd'
                exact ⟨h1, hv3' h2⟩
              · obtain ⟨h1, h2⟩ := hB1 x hxv2 hxdv
                refine ⟨h1, ?_⟩
                intro t' hlt' d' hd'
                obtain ⟨h3, h4⟩ := h2 t' hlt' d' hd'
                exact ⟨h3, hv3' h4⟩
            · exact hB2 x hx hxv2

/-- Completeness of the cycle check: an `ok` run from an empty visited set
certifies that `s` is not reachable from any of the listed deps. -/
theorem checkCircular_not_reach (r : Registry) (s : String) (deps : List String)
    (v' : { v : List String // ([] : List String) ⊆ v })
    (h : checkCircularGo r s deps [] = .ok v') :
    ∀ d ∈ deps, d ≠ s ∧ ¬ Relation.TransGen (depEdge r) d s := by
  obtain ⟨hC, hB⟩ := checkCircularGo_props r s deps [] v' h
  have key : ∀ x, Relation.TransGen (depEdge r) x s → x ∈ v'.val → False := by
    intro x htg
    induction htg using Relation.TransGen.head_induction_on with
    | base hab =>
      rename_i a
      intro ha
      obtain ⟨hane, hBa⟩ := hB a ha (by simp)
      obtain ⟨t, hla, hsd⟩ := hab
      exact ((hBa t hla s hsd).1) rfl
    | ih hac hcb IH =>
      rename_i a c
      intro ha
      obtain ⟨hane, hBa⟩ := hB a ha (by simp)
      obtain ⟨t, hla, hcd⟩ := hac
      exact IH ((hBa t hla c hcd).2)
  intro d hd
  exact ⟨(hC d hd).1, fun htg => key d htg (hC d hd).2⟩

theorem mem_of_lookup {m : List (String × Task)} {k : String} {t : Task}
    (h : lookupKey m k = some t) : (k, t) ∈ m := by
  induction m with
  | nil => simp [lookupKey] at h
  | cons p m ih =>
    by_cases hp : p.1 = k
    · simp only [lookupKey, hp, if_true] at h
      injection h with h2
      have hpt : p = (k, t) := Prod.ext hp h2
      rw [← hpt]
      exact List.mem_cons_self p m
    · simp only [lookupKey, hp, if_false] at h
      exact List.mem_cons_of_mem _ (ih h)

theorem validateDeps_none {r : Registry} {t : Task}
    (h : r.validateDeps t = none) :
    ∀ d ∈ t.deps, (r.lookup d).isSome = true := by
  intro d hd
  unfold Registry.validateDeps at h
  split at h
  · simp at h
  · rename_i hfind
    have h2 := List.find?_eq_none.mp hfind d hd
    cases hl : r.lookup d with
    | none => rw [hl] at h2; simp at h2
    | some u => rfl

/-! Preservation of the invariant by the three mutating operations. -/

theorem invReg_insert_add (r : Registry) (t : Task)
    (hdupn : r.lookup t.id = none)
    (hdeps : ∀ d ∈ t.deps, (r.lookup d).isSome = true)
    (hinv : InvReg r) :
    InvReg { r with tasks := mapInsert r.tasks t.id t } := by
  have hlook : ∀ a, Registry.lookup { r with tasks := mapInsert r.tasks t.id t } a
      = if a = t.id then some t else r.lookup a :=
    fun a => lookupKey_mapInsert r.tasks t.id t a
  constructor
  · intro a u ha d hd
    rw [hlook] at ha
    rw [hlook]
    by_cases hat : a = t.id
    · rw [if_pos hat] at ha
      injection ha with hu
      subst hu
      have hds := hdeps d hd
      by_cases hdt : d = t.id
      · rw [hdt, hdupn] at hds
        simp at hds
      · rw [if_neg hdt]
        exact hds
    · rw [if_neg hat] at ha
      have hds := hinv.1 a u ha d hd
      by_cases hdt : d = t.id
      · rw [if_pos hdt]
        rfl
      · rw [if_neg hdt]
        exact hds
  · intro x htg
    have hnoin : ∀ a, ¬ depEdge { r with tasks := mapInsert r.tasks t.id t } a t.id := by
      rintro a ⟨u, hlu, hmem⟩
      rw [hlook] at hlu
      by_cases hat : a = t.id
      · rw [if_pos hat] at hlu
        injection hlu with hu
        subst hu
        have hds := hdeps t.id hmem
        rw [hdupn] at hds
        simp at hds
      · rw [if_neg hat] at hlu
        have hds := hinv.1 a u hlu t.id hmem
        rw [hdupn] at hds
        simp at hds
    have hmid : ∀ a b,
        (fun x y => x ≠ t.id ∧ depEdge { r with tasks := mapInsert r.tasks t.id t } x y) a b →
        depEdge r a b := by
      rintro a b ⟨hat, u, hlu, hmem⟩
      rw [hlook, if_neg hat] at hlu
      exact ⟨u, hlu, hmem⟩
    rcases transGen_avoid_or_through _ t.id htg with hmidtg | ⟨hxs, hsx⟩
    · exact hinv.2 x (Relation.TransGen.mono hmid hmidtg)
    · have htss : Relation.TransGen
          (depEdge { r with tasks := mapInsert r.tasks t.id t }) t.id t.id := by
        by_cases hxts : x = t.id
        · exact hxts ▸ htg
        · have h1 : Relation.TransGen
              (depEdge { r with tasks := mapInsert r.tasks t.id t }) x t.id := by
            rcases Relation.reflTransGen_iff_eq_or_transGen.mp hxs with heq | htg1
            · exact absurd heq.symm hxts
            · exact htg1
          have h2 : Relation.TransGen
              (depEdge { r with tasks := mapInsert r.tasks t.id t }) t.id x := by
            rcases Relation.reflTransGen_iff_eq_or_transGen.mp hsx with heq | htg2
            · exact absurd heq hxts
            · exact htg2
          exact h2.trans h1
      obtain ⟨b, hrb, hedge⟩ := Relation.TransGen.tail'_iff.mp htss
      exact hnoin b hedge

theorem invReg_insert_update (r : Registry) (t : Task)
    (hdeps : ∀ d ∈ t.deps, (r.lookup d).isSome = true)
    (hcomp : ∀ d ∈ t.deps, d ≠ t.id ∧ ¬ Relation.TransGen (depEdge r) d t.id)
    (hinv : InvReg r) :
    InvReg { r with tasks := mapInsert r.tasks t.id t } := by
  have hlook : ∀ a, Registry.lookup { r with tasks := mapInsert r.tasks t.id t } a
      = if a = t.id then some t else r.lookup a :=
    fun a => lookupKey_mapInsert r.tasks t.id t a
  constructor
  · intro a u ha d hd
    rw [hlook] at ha
    rw [hlook]
    by_cases hdt : d = t.id
    · rw [if_pos hdt]
      rfl
    · rw [if_neg hdt]
      by_cases hat : a = t.id
      · rw [if_pos hat] at ha
        injection ha with hu
        subst hu
        exact hdeps d hd
      · rw [if_neg hat] at ha
        exact hinv.1 a u ha d hd
  · intro x htg
    have hsub : ∀ a b, depEdge { r with tasks := mapInsert r.tasks t.id t } a b →
        a = t.id ∨ depEdge r a b := by
      rintro a b ⟨u, hlu, hmem⟩
      rw [hlook] at hlu
      by_cases hat : a = t.id
      · exact Or.inl hat
      · rw [if_neg hat] at hlu
        exact Or.inr ⟨u, hlu, hmem⟩
    have hnews : ∀ b, depEdge { r with tasks := mapInsert r.tasks t.id t } t.id b →
        b ∈ t.deps := by
      rintro b ⟨u, hlu, hmem⟩
      rw [hlook, if_pos rfl] at hlu
      injection hlu with hu
      subst hu
      exact hmem
    have hmid : ∀ a b,
        (fun x y => x ≠ t.id ∧ depEdge { r with tasks := mapInsert r.tasks t.id t } x y) a b →
        depEdge r a b := by
      rintro a b ⟨hat, hab⟩
      rcases hsub a b hab with heq | hro
      · exact absurd heq hat
      · exact hro
    rcases transGen_avoid_or_through _ t.id htg with hmidtg | ⟨hxs, hsx⟩
    · exact hinv.2 x (Relation.TransGen.mono hmid hmidtg)
    · have htss : Relation.TransGen
          (depEdge { r with tasks := mapInsert r.tasks t.id t }) t.id t.id := by
        by_cases hxts : x = t.id
        · exact hxts ▸ htg
        · have h1 : Relation.TransGen
              (depEdge { r with tasks := mapInsert r.tasks t.id t }) x t.id := by
            rcases Relation.reflTransGen_iff_eq_or_transGen.mp hxs with heq | htg1
            · exact absurd heq.symm hxts
            · exact htg1
          have h2 : Relation.TransGen
              (depEdge { r with tasks := mapInsert r.tasks t.id t }) t.id x := by
            rcases Relation.reflTransGen_iff_eq_or_transGen.mp hsx with heq | htg2
            · exact absurd heq hxts
            · exact htg2
          exact h2.trans h1
      obtain ⟨c, hedge, hrc⟩ := Relation.TransGen.head'_iff.mp htss
      have hcdep := hnews c hedge
      obtain ⟨hcne, hcnot⟩ := hcomp c hcdep
      rcases Relation.reflTransGen_iff_eq_or_transGen.mp hrc with heq | htgc
      · exact hcne heq.symm
      · have hna : ¬ Relation.ReflTransGen (depEdge r) c t.id := by
          intro hrtg
          rcases Relation.reflTransGen_iff_eq_or_transGen.mp hrtg with heq | htg'
          · exact hcne heq.symm
          · exact hcnot htg'
        obtain ⟨htgo, -⟩ := transGen_of_not_reach hsub htgc hna
        exact hcnot htgo

theorem invReg_erase (r : Registry) (id : String)
    (hnodep : ∀ p ∈ r.tasks, id ∉ p.2.deps)
    (hinv : InvReg r) :
    InvReg { r with tasks := eraseKey r.tasks id } := by
  have hlook : ∀ a, Registry.lookup { r with tasks := eraseKey r.tasks id } a
      = if a = id then none else r.lookup a :=
    fun a => lookupKey_eraseKey r.tasks id a
  have hsub : ∀ a b, depEdge { r with tasks := eraseKey r.tasks id } a b →
      depEdge r a b := by
    rintro a b ⟨u, hlu, hmem⟩
    rw [hlook] at hlu
    by_cases hat : a = id
    · rw [if_pos hat] at hlu
      exact Option.noConfusion hlu
    · rw [if_neg hat] at hlu
      exact ⟨u, hlu, hmem⟩
  constructor
  · intro a u ha d hd
    rw [hlook] at ha
    by_cases hat : a = id
    · rw [if_pos hat] at ha
      exact Option.noConfusion ha
    · rw [if_neg hat] at ha
      have hmem := mem_of_lookup (m := r.tasks) ha
      have hdne : d ≠ id := fun heq => hnodep (a, u) hmem (heq ▸ hd)
      rw [hlook, if_neg hdne]
      exact hinv.1 a u ha d hd
  · intro x htg
    exact hinv.2 x (Relation.TransGen.mono hsub htg)

/-- The operations of the claim. -/
inductive Op where
  | add (t : Task)
  | update (t : Task)
  | delete (id : String)

/-- Apply one operation; a failed operation leaves the registry unchanged
(its result registry is the first component returned by the operation). -/
def applyOp (r : Registry) (op : Op) : Registry :=
  match op with
  | .add t => (r.Add t).1
  | .update t => (r.Update t).1
  | .delete id => (r.Delete id).1

theorem invReg_new : InvReg NewRegistry := by
  constructor
  · intro a t ha
    simp [Registry.lookup, lookupKey, NewRegistry] at ha
  · intro x htg
    obtain ⟨c, hedge, -⟩ := Relation.TransGen.head'_iff.mp htg
    obtain ⟨u, hlu, -⟩ := hedge
    simp [Registry.lookup, lookupKey, NewRegistry] at hlu

theorem invReg_applyOp (r : Registry) (op : Op) (hinv : InvReg r) :
    InvReg (applyOp r op) := by
  cases op with
  | add t =>
    show InvReg (r.Add t).1
    unfold Registry.Add
    split
    · exact hinv
    · split
      · exact hinv
      · rename_i hdup
        split
        · exact hinv
        · rename_i hdeps
          have hdupn : r.lookup t.id = none := by
            cases hh : r.lookup t.id with
            | none => rfl
            | some u => rw [hh] at hdup; simp at hdup
          exact invReg_insert_add r t hdupn (validateDeps_none hdeps) hinv
  | update t =>
    show InvReg (r.Update t).1
    unfold Registry.Update
    split
    · exact hinv
    · split
      · exact hinv
      · split
        · exact hinv
        · rename_i hdeps
          split
          · exact hinv
          · rename_i v' hok
            exact invReg_insert_update r t (validateDeps_none hdeps)
              (checkCircular_not_reach r t.id t.deps v' hok) hinv
  | delete id =>
    show InvReg (r.Delete id).1
    unfold Registry.Delete
    split
    · exact hinv
    · split
      · exact hinv
      · rename_i hfind
        have hnodep : ∀ p ∈ r.tasks, id ∉ p.2.deps := by
          intro p hp hmem
          have h2 := List.find?_eq_none.mp hfind p hp
          simp only [List.contains_eq_any_beq, List.any_eq_true] at h2
          exact h2 ⟨id, hmem, by simp⟩
        exact invReg_erase r id hnodep hinv

/-- C1: starting from the empty registry, after every sequence of Add,
Update and Delete operations (a failed operation leaving the registry
unchanged) the registry satisfies the invariant: every id in the deps of a
stored task is itself a key of the registry, and no task transitively
depends on itself. -/
theorem registry_sequences_preserve_invariant (ops : List Op) :
    NoDangling (ops.foldl applyOp NewRegistry) ∧
      AcyclicReg (ops.foldl applyOp NewRegistry) := by
  have main : ∀ (l : List Op) (r : Registry), InvReg r → InvReg (l.foldl applyOp r) := by
    intro l
    induction l with
    | nil => exact fun r h => h
    | cons op l ih =>
      intro r h
      exact ih _ (invReg_applyOp r op h)
  exact main ops NewRegistry invReg_new

/-- Witness for C1: after adding a task and a dependent, the dependency id
is a key. -/
theorem registry_sequences_preserve_invariant_witness :
    ((([Op.add { id := "a", title := "A", status := StatusPending },
        Op.add { id := "b", title := "B", status := StatusPending, deps := ["a"] }
       ].foldl applyOp NewRegistry).lookup "a").isSome) = true :=
  (registry_sequences_preserve_invariant
      [Op.add { id := "a", title := "A", status := StatusPending },
       Op.add { id := "b", title := "B", status := StatusPending, deps := ["a"] }]).1
    "b" { id := "b", title := "B", status := StatusPending, deps := ["a"] }
    (by decide) "a" (by decide)

end Flo
